import Mathlib

/-!
Verification of the keyframe-handle transformation engine of
`resolve-easing` (`src/reference-old/src/easing/bezier-handles.js` and the
chain-application handler of the Electron main process).

Numbers are modelled as exact rationals (`ℚ`); keyframe tables are
modelled as association lists from frame to keyframe.
-/

/-- A 2D point / offset `{x, y}` as used by `calculateHandles`. -/
structure HPoint where
  x : ℚ
  y : ℚ
deriving Repr, DecidableEq

/-- The result record `{rh1, lh2}` of `calculateHandles`. -/
structure Handles where
  rh1 : HPoint
  lh2 : HPoint
deriving Repr, DecidableEq

/-- The `BEZIER_PRESETS` table (bezier-handles.js lines 35-78), in source
order: `name ↦ [x1, y1, x2, y2]`. -/
def BEZIER_PRESETS : List (String × (ℚ × ℚ × ℚ × ℚ)) :=
  [ ("linear", (0, 0, 1, 1)),
    ("easeInSine", (0.12, 0, 0.39, 0)),
    ("easeOutSine", (0.61, 1, 0.88, 1)),
    ("easeInOutSine", (0.37, 0, 0.63, 1)),
    ("easeInQuad", (0.11, 0, 0.5, 0)),
    ("easeOutQuad", (0.5, 1, 0.89, 1)),
    ("easeInOutQuad", (0.45, 0, 0.55, 1)),
    ("easeInCubic", (0.32, 0, 0.67, 0)),
    ("easeOutCubic", (0.33, 1, 0.68, 1)),
    ("easeInOutCubic", (0.65, 0, 0.35, 1)),
    ("easeInQuart", (0.5, 0, 0.75, 0)),
    ("easeOutQuart", (0.25, 1, 0.5, 1)),
    ("easeInOutQuart", (0.76, 0, 0.24, 1)),
    ("easeInQuint", (0.64, 0, 0.78, 0)),
    ("easeOutQuint", (0.22, 1, 0.36, 1)),
    ("easeInOutQuint", (0.83, 0, 0.17, 1)),
    ("easeInExpo", (0.7, 0, 0.84, 0)),
    ("easeOutExpo", (0.16, 1, 0.3, 1)),
    ("easeInOutExpo", (0.87, 0, 0.13, 1)),
    ("easeInCirc", (0.55, 0, 1, 0.45)),
    ("easeOutCirc", (0, 0.55, 0.45, 1)),
    ("easeInOutCirc", (0.85, 0, 0.15, 1)),
    ("easeInBack", (0.6, -0.28, 0.735, 0.045)),
    ("easeOutBack", (0.265, 0.955, 0.4, 1.275)),
    ("easeInOutBack", (0.68, -0.55, 0.265, 1.55)) ]

/-- `getBezierPoints` (lines 85-87): `BEZIER_PRESETS[easingName] || null`. -/
def getBezierPoints (easingName : String) : Option (ℚ × ℚ × ℚ × ℚ) :=
  BEZIER_PRESETS.lookup easingName

/-- `isSingleBezier` (lines 95-97): `BEZIER_PRESETS.hasOwnProperty(easingName)`. -/
def isSingleBezier (easingName : String) : Bool :=
  (BEZIER_PRESETS.lookup easingName).isSome

/-- `calculateHandles` (lines 116-163). -/
def calculateHandles (easingName : String) (frame1 value1 frame2 value2 : ℚ) :
    Option Handles :=
  match getBezierPoints easingName with
  | none => none
  | some (x1, y1, x2, y2) =>
    let frameDelta := frame2 - frame1
    let valueDelta := value2 - value1
    if easingName = "linear" then
      some { rh1 := { x := frameDelta / 3, y := valueDelta / 3 },
             lh2 := { x := -frameDelta / 3, y := -valueDelta / 3 } }
    else
      let p1_abs : HPoint := { x := frame1 + frameDelta * x1, y := value1 + valueDelta * y1 }
      let p2_abs : HPoint := { x := frame1 + frameDelta * x2, y := value1 + valueDelta * y2 }
      let rh1 : HPoint := { x := p1_abs.x - frame1, y := p1_abs.y - value1 }
      let lh2 : HPoint := { x := p2_abs.x - frame2, y := p2_abs.y - value2 }
      some { rh1 := rh1, lh2 := lh2 }

/-- A canonical keyframe `{ value, LH?, RH? }` as produced by
`fromFusionFormat` and by the cloning loops of the two transformer
functions; handles are relative-offset pairs `[x, y]`. -/
structure Keyframe where
  value : ℚ
  LH : Option (ℚ × ℚ)
  RH : Option (ℚ × ℚ)
deriving Repr, DecidableEq

/-- `Object.keys(...).map(Number).sort((a, b) => a - b)`: the frames of a
keyframe table, sorted ascending. -/
def sortFrames (l : List ℚ) : List ℚ :=
  l.insertionSort (· ≤ ·)

/-- Property access `table[frame]` on a keyframe table. -/
def lookupKF (kfs : List (ℚ × Keyframe)) (f : ℚ) : Option Keyframe :=
  (kfs.find? fun p => decide (p.1 = f)).map Prod.snd

/-- `table[frame]` where the frame is known to be present; the default is
never reached when `f` is one of the table's keys. -/
def lookupD (kfs : List (ℚ × Keyframe)) (f : ℚ) : Keyframe :=
  (lookupKF kfs f).getD ⟨0, none, none⟩

/-- The mutation `result[frame].RH = [x, y]`. -/
def setRH (kfs : List (ℚ × Keyframe)) (f : ℚ) (h : ℚ × ℚ) : List (ℚ × Keyframe) :=
  kfs.map fun p => if p.1 = f then (p.1, { p.2 with RH := some h }) else p

/-- The mutation `result[frame].LH = [x, y]`. -/
def setLH (kfs : List (ℚ × Keyframe)) (f : ℚ) (h : ℚ × ℚ) : List (ℚ × Keyframe) :=
  kfs.map fun p => if p.1 = f then (p.1, { p.2 with LH := some h }) else p

/-- The shared "calculate and apply handles" body (bezier-handles.js lines
215-227 and 270-285): read the two values from `result`, call
`calculateHandles`, and if it returned handles, set the first keyframe's
`RH` and the second keyframe's `LH`; otherwise leave `result` untouched. -/
def pairWrite (result : List (ℚ × Keyframe)) (easingName : String) (f1 f2 : ℚ) :
    List (ℚ × Keyframe) :=
  let v1 := (lookupD result f1).value
  let v2 := (lookupD result f2).value
  match calculateHandles easingName f1 v1 f2 v2 with
  | none => result
  | some h => setLH (setRH result f1 (h.rh1.x, h.rh1.y)) f2 (h.lh2.x, h.lh2.y)

/-- `applyEasingToKeyframePair` (lines 175-230) on a canonical keyframe
table.  The cloning loop (lines 189-213), specialised to the canonical
`{ value, LH?, RH? }` shape it receives in this repository (the output of
`fromFusionFormat`), reads `kf.value` and passes the array-form handles
through unchanged, so the clone of frame `f` is exactly the stored
keyframe. -/
def applyEasingToKeyframePair (existingKeyframes : List (ℚ × Keyframe))
    (easingName : String) (frame1 frame2 : ℚ) : Except String (List (ℚ × Keyframe)) :=
  let frames := sortFrames (existingKeyframes.map Prod.fst)
  if frame1 ∉ frames ∨ frame2 ∉ frames then
    .error "Keyframes at frame1 and frame2 must exist"
  else if frame1 ≥ frame2 then
    .error "frame1 must be less than frame2"
  else
    .ok (pairWrite (frames.map fun f => (f, lookupD existingKeyframes f))
          easingName frame1 frame2)

/-- The handle-application loop of `applyEasingToKeyframes` (lines
271-286), iterating `pairWrite` over the consecutive frame pairs. -/
def applyPairsLoop (result : List (ℚ × Keyframe)) (easingName : String) :
    List (ℚ × ℚ) → List (ℚ × Keyframe)
  | [] => result
  | (f1, f2) :: rest => applyPairsLoop (pairWrite result easingName f1 f2) easingName rest

/-- `applyEasingToKeyframes` (lines 242-289).  Note that its cloning loop
(lines 252-268) keeps only `{ value }` — unlike the pair variant it does
not preserve existing `LH`/`RH` handles. -/
def applyEasingToKeyframes (existingKeyframes : List (ℚ × Keyframe))
    (easingName : String) : Except String (List (ℚ × Keyframe)) :=
  let frames := sortFrames (existingKeyframes.map Prod.fst)
  if frames.length < 2 then
    .error "Need at least 2 keyframes to apply easing"
  else
    let result := frames.map fun f =>
      (f, ({ value := (lookupD existingKeyframes f).value, LH := none, RH := none } : Keyframe))
    .ok (applyPairsLoop result easingName (frames.zip frames.tail))

/-- Drop every keyframe's handles, keeping only its value (the effect of
the value-only cloning loop of `applyEasingToKeyframes`). -/
def stripHandles (kfs : List (ℚ × Keyframe)) : List (ℚ × Keyframe) :=
  kfs.map fun p => (p.1, { value := p.2.value, LH := none, RH := none })

/-- The clone produced by `applyEasingToKeyframePair` before any handle is
written: the table re-keyed in ascending frame order, each keyframe kept
whole. -/
def sortedClone (kfs : List (ℚ × Keyframe)) : List (ℚ × Keyframe) :=
  (sortFrames (kfs.map Prod.fst)).map fun f => (f, lookupD kfs f)

/-- Left-to-right fold of `applyEasingToKeyframePair` over a list of frame
pairs, stopping at the first error (the shape of the multi-frame loop in
the Electron main process `fusion:applyEasing` handler). -/
def foldApplyPairs (kfs : List (ℚ × Keyframe)) (easingName : String) :
    List (ℚ × ℚ) → Except String (List (ℚ × Keyframe))
  | [] => .ok kfs
  | (f1, f2) :: rest =>
    match applyEasingToKeyframePair kfs easingName f1 f2 with
    | .error e => .error e
    | .ok next => foldApplyPairs next easingName rest

/-- The consecutive pairs of a table's frames, sorted ascending. -/
def consecutivePairs (kfs : List (ℚ × Keyframe)) : List (ℚ × ℚ) :=
  let frames := sortFrames (kfs.map Prod.fst)
  frames.zip frames.tail

/-- The chain application of the `fusion:applyEasing` handler (Electron
main process, multi-frame selection branch): first reject tables with
fewer than 2 keyframes (`Object.keys(existingKeyframes).length < 2`),
then reject curves that are not a single bezier, then fold
`applyEasingToKeyframePair` over every consecutive pair of the selected
frames sorted ascending. -/
def applyEasingChain (kfs : List (ℚ × Keyframe)) (easingName : String)
    (selectedFrames : List ℚ) : Except String (List (ℚ × Keyframe)) :=
  if kfs.length < 2 then
    .error "Need at least 2 keyframes to apply easing"
  else if isSingleBezier easingName = false then
    .error (easingName ++ " cannot be represented as a single bezier curve.")
  else
    let sorted := sortFrames selectedFrames
    foldApplyPairs kfs easingName (sorted.zip sorted.tail)

/-- A JavaScript value sitting in a value slot of a raw keyframe table:
a number, a string, or an object of shape `{ value: ... }` (the
"double-wrapped" case). -/
inductive RawVal where
  | num (q : ℚ)
  | str (s : String)
  | wrapped (v : RawVal)
deriving Repr, DecidableEq

/-- A raw handle as accepted by `fromFusionFormat`: either a two-element
array `[x, y]` or an object `{ x, y }`. -/
inductive RawHandle where
  | harr (x y : RawVal)
  | hobj (x y : RawVal)
deriving Repr, DecidableEq

/-- One entry of a raw keyframe table: a bare number, a bare string, an
array `[value]` with attached `.LH`/`.RH` properties, or an object
`{ value, LH?, RH? }`. -/
inductive RawKF where
  | bareNum (q : ℚ)
  | bareStr (s : String)
  | arr (v : RawVal) (lh rh : Option RawHandle)
  | obj (v : RawVal) (lh rh : Option RawHandle)
deriving Repr, DecidableEq

/-- Decimal-integer digit accumulator for the string case of the JS
`Number(...)` coercion. -/
def decDigitsAux : Nat → List Char → Option Nat
  | acc, [] => some acc
  | acc, c :: cs =>
    if c.isDigit then decDigitsAux (10 * acc + (c.toNat - 48)) cs else none

/-- The JS builtin `Number(...)` on a string, restricted to optionally
signed decimal integers (the only string forms exercised by this
repository's tables); `none` models `NaN`. -/
def jsStringNumber (s : String) : Option ℚ :=
  match s.data with
  | [] => some 0
  | '-' :: cs => if cs = [] then none else (decDigitsAux 0 cs).map fun n => -(n : ℚ)
  | cs => (decDigitsAux 0 cs).map fun n => (n : ℚ)

/-- The JS builtin `Number(...)` on a raw value (`none` models `NaN`;
`Number` of a plain object is `NaN`). -/
def jsNumber : RawVal → Option ℚ
  | .num q => some q
  | .str s => jsStringNumber s
  | .wrapped _ => none

/-- The idiom `Number(v) || 0`: `NaN` (and only `NaN`, since `0 || 0` is
`0`) falls back to `0`. -/
def jsNumberOrZero (v : RawVal) : ℚ :=
  (jsNumber v).getD 0

/-- The value extracted from a raw entry by `fromFusionFormat` lines
346-353: `data[0]` for arrays, `data.value` for objects, the entry itself
otherwise. -/
def fusionEntryValue : RawKF → RawVal
  | .bareNum q => .num q
  | .bareStr s => .str s
  | .arr v _ _ => v
  | .obj v _ _ => v

/-- Lines 356-358: unwrap a double-wrapped `{ value: ... }` exactly one
level. -/
def unwrapOnce : RawVal → RawVal
  | .wrapped v => v
  | v => v

/-- Lines 356-361: one unwrap, then `typeof value !== 'number'` falls back
to `Number(value) || 0`. -/
def coerceValue (v : RawVal) : ℚ :=
  match unwrapOnce v with
  | .num q => q
  | w => jsNumberOrZero w

/-- The `.LH` property of a raw entry (absent on bare numbers/strings). -/
def fusionEntryLH : RawKF → Option RawHandle
  | .arr _ lh _ => lh
  | .obj _ lh _ => lh
  | _ => none

/-- The `.RH` property of a raw entry. -/
def fusionEntryRH : RawKF → Option RawHandle
  | .arr _ _ rh => rh
  | .obj _ _ rh => rh
  | _ => none

/-- Lines 366-373: `[Number(lh[0]) || 0, Number(lh[1]) || 0]`, reading
`[x, y]` from an array handle or `{ x, y }` from an object handle. -/
def handleCoords : RawHandle → ℚ × ℚ
  | .harr x y => (jsNumberOrZero x, jsNumberOrZero y)
  | .hobj x y => (jsNumberOrZero x, jsNumberOrZero y)

/-- `fromFusionFormat` (lines 338-379) applied to one entry. -/
def fromFusionEntry (data : RawKF) : Keyframe :=
  { value := coerceValue (fusionEntryValue data),
    LH := (fusionEntryLH data).map handleCoords,
    RH := (fusionEntryRH data).map handleCoords }

/-- `fromFusionFormat` (lines 338-379). -/
def fromFusionFormat (fusionKeyframes : List (ℚ × RawKF)) : List (ℚ × Keyframe) :=
  fusionKeyframes.map fun p => (p.1, fromFusionEntry p.2)

/-- `toFusionFormat` (lines 305-326) applied to one canonical keyframe:
`entry = [value]` with `LH`/`RH` array properties when present.  On the
canonical numeric shape the source's `typeof`/`Number(...) || 0` guards
are the identity. -/
def toFusionEntry (k : Keyframe) : RawKF :=
  .arr (.num k.value)
    (k.LH.map fun h => RawHandle.harr (.num h.1) (.num h.2))
    (k.RH.map fun h => RawHandle.harr (.num h.1) (.num h.2))

/-- `toFusionFormat` (lines 305-326). -/
def toFusionFormat (keyframes : List (ℚ × Keyframe)) : List (ℚ × RawKF) :=
  keyframes.map fun p => (p.1, toFusionEntry p.2)

/-- A raw value in a supported variant: a plain number. -/
def validVal : RawVal → Bool
  | .num _ => true
  | _ => false

/-- A raw handle whose coordinates are plain numbers. -/
def validHandle : RawHandle → Bool
  | .harr x y => validVal x && validVal y
  | .hobj x y => validVal x && validVal y

/-- A raw entry in one of the supported variants of the spec: bare number,
object `{value, LH?, RH?}`, or array `[value]` with attached handles, all
coordinates numeric. -/
def validRawKF : RawKF → Bool
  | .bareNum _ => true
  | .bareStr _ => false
  | .arr v lh rh => validVal v && lh.all validHandle && rh.all validHandle
  | .obj v lh rh => validVal v && lh.all validHandle && rh.all validHandle

theorem mem_sortFrames {l : List ℚ} {x : ℚ} : x ∈ sortFrames l ↔ x ∈ l :=
  List.mem_insertionSort _

theorem nodup_sortFrames {l : List ℚ} (h : l.Nodup) : (sortFrames l).Nodup :=
  (List.perm_insertionSort _ l).nodup_iff.mpr h

theorem sorted_sortFrames (l : List ℚ) : (sortFrames l).Sorted (· ≤ ·) :=
  List.sorted_insertionSort _ l

theorem length_sortFrames (l : List ℚ) : (sortFrames l).length = l.length :=
  List.length_insertionSort _ l

theorem sortFrames_of_sorted {l : List ℚ} (h : l.Sorted (· ≤ ·)) : sortFrames l = l :=
  h.insertionSort_eq

theorem lookupKF_cons {p : ℚ × Keyframe} {t : List (ℚ × Keyframe)} {f : ℚ} :
    lookupKF (p :: t) f = if p.1 = f then some p.2 else lookupKF t f := by
  by_cases h : p.1 = f
  · rw [lookupKF, List.find?_cons_of_pos _ (by simpa using h), if_pos h]
    rfl
  · rw [lookupKF, List.find?_cons_of_neg _ (by simpa using h), if_neg h]
    rfl

theorem lookupKF_eq_none {kfs : List (ℚ × Keyframe)} {f : ℚ}
    (h : f ∉ kfs.map Prod.fst) : lookupKF kfs f = none := by
  induction kfs with
  | nil => rfl
  | cons p t ih =>
    simp only [List.map_cons, List.mem_cons, not_or] at h
    rw [lookupKF_cons, if_neg fun hp => h.1 hp.symm]
    exact ih h.2

theorem lookupKF_isSome {kfs : List (ℚ × Keyframe)} {f : ℚ}
    (h : f ∈ kfs.map Prod.fst) : (lookupKF kfs f).isSome := by
  induction kfs with
  | nil => simp at h
  | cons p t ih =>
    rw [lookupKF_cons]
    by_cases hp : p.1 = f
    · simp [hp]
    · simp only [List.map_cons, List.mem_cons] at h
      rcases h with h | h
      · exact absurd h.symm hp
      · simpa [hp] using ih h

theorem lookupKF_eq_some_lookupD {kfs : List (ℚ × Keyframe)} {f : ℚ}
    (h : f ∈ kfs.map Prod.fst) : lookupKF kfs f = some (lookupD kfs f) := by
  cases hl : lookupKF kfs f with
  | none => exact absurd (lookupKF_isSome h) (by simp [hl])
  | some k => simp [lookupD, hl]

theorem lookupKF_keyMap_of_mem {g : ℚ → Keyframe} {frames : List ℚ} (hnd : frames.Nodup)
    {f : ℚ} (hf : f ∈ frames) :
    lookupKF (frames.map fun x => (x, g x)) f = some (g f) := by
  induction frames with
  | nil => simp at hf
  | cons a t ih =>
    rw [List.map_cons, lookupKF_cons]
    rcases List.mem_cons.mp hf with rfl | hft
    · simp
    · have hne : ¬ a = f := fun h => (List.nodup_cons.mp hnd).1 (h ▸ hft)
      rw [if_neg hne]
      exact ih (List.nodup_cons.mp hnd).2 hft

theorem map_fst_keyMap (g : ℚ → Keyframe) (frames : List ℚ) :
    (frames.map fun x => (x, g x)).map Prod.fst = frames := by
  simp [List.map_map, Function.comp_def]

theorem lookupKF_keyMap_of_not_mem {g : ℚ → Keyframe} {frames : List ℚ}
    {f : ℚ} (hf : f ∉ frames) :
    lookupKF (frames.map fun x => (x, g x)) f = none := by
  apply lookupKF_eq_none
  rw [map_fst_keyMap]
  exact hf

theorem setRH_cons (p : ℚ × Keyframe) (t : List (ℚ × Keyframe)) (f0 : ℚ) (h : ℚ × ℚ) :
    setRH (p :: t) f0 h =
      (if p.1 = f0 then (p.1, { p.2 with RH := some h }) else p) :: setRH t f0 h := by
  simp [setRH]

theorem setLH_cons (p : ℚ × Keyframe) (t : List (ℚ × Keyframe)) (f0 : ℚ) (h : ℚ × ℚ) :
    setLH (p :: t) f0 h =
      (if p.1 = f0 then (p.1, { p.2 with LH := some h }) else p) :: setLH t f0 h := by
  simp [setLH]

theorem map_fst_setRH (kfs : List (ℚ × Keyframe)) (f : ℚ) (h : ℚ × ℚ) :
    (setRH kfs f h).map Prod.fst = kfs.map Prod.fst := by
  rw [setRH, List.map_map]
  apply List.map_congr_left
  intro p _
  by_cases hp : p.1 = f <;> simp [hp]

theorem map_fst_setLH (kfs : List (ℚ × Keyframe)) (f : ℚ) (h : ℚ × ℚ) :
    (setLH kfs f h).map Prod.fst = kfs.map Prod.fst := by
  rw [setLH, List.map_map]
  apply List.map_congr_left
  intro p _
  by_cases hp : p.1 = f <;> simp [hp]

theorem lookupKF_setRH (kfs : List (ℚ × Keyframe)) (f0 : ℚ) (h : ℚ × ℚ) (f : ℚ) :
    lookupKF (setRH kfs f0 h) f =
      if f = f0 then (lookupKF kfs f).map fun k => { k with RH := some h }
      else lookupKF kfs f := by
  induction kfs with
  | nil => simp [setRH, lookupKF]
  | cons p t ih =>
    rw [setRH_cons, lookupKF_cons]
    by_cases hpf0 : p.1 = f0
    · rw [if_pos hpf0]
      by_cases hpf : p.1 = f
      · have hf0 : f = f0 := hpf ▸ hpf0
        rw [if_pos hpf, if_pos hf0, lookupKF_cons, if_pos hpf]
        rfl
      · have hf0 : ¬ f = f0 := fun hh => hpf (hpf0.trans hh.symm)
        rw [if_neg hpf, ih, if_neg hf0, if_neg hf0, lookupKF_cons, if_neg hpf]
    · rw [if_neg hpf0]
      by_cases hpf : p.1 = f
      · have hf0 : ¬ f = f0 := fun hh => hpf0 (hpf.trans hh)
        rw [if_pos hpf, if_neg hf0, lookupKF_cons, if_pos hpf]
      · rw [if_neg hpf, ih, lookupKF_cons, if_neg hpf]

theorem lookupKF_setLH (kfs : List (ℚ × Keyframe)) (f0 : ℚ) (h : ℚ × ℚ) (f : ℚ) :
    lookupKF (setLH kfs f0 h) f =
      if f = f0 then (lookupKF kfs f).map fun k => { k with LH := some h }
      else lookupKF kfs f := by
  induction kfs with
  | nil => simp [setLH, lookupKF]
  | cons p t ih =>
    rw [setLH_cons, lookupKF_cons]
    by_cases hpf0 : p.1 = f0
    · rw [if_pos hpf0]
      by_cases hpf : p.1 = f
      · have hf0 : f = f0 := hpf ▸ hpf0
        rw [if_pos hpf, if_pos hf0, lookupKF_cons, if_pos hpf]
        rfl
      · have hf0 : ¬ f = f0 := fun hh => hpf (hpf0.trans hh.symm)
        rw [if_neg hpf, ih, if_neg hf0, if_neg hf0, lookupKF_cons, if_neg hpf]
    · rw [if_neg hpf0]
      by_cases hpf : p.1 = f
      · have hf0 : ¬ f = f0 := fun hh => hpf0 (hpf.trans hh)
        rw [if_pos hpf, if_neg hf0, lookupKF_cons, if_pos hpf]
      · rw [if_neg hpf, ih, lookupKF_cons, if_neg hpf]

theorem map_lookupD_eq_self {kfs : List (ℚ × Keyframe)} (hnd : (kfs.map Prod.fst).Nodup) :
    ((kfs.map Prod.fst).map fun f => (f, lookupD kfs f)) = kfs := by
  induction kfs with
  | nil => rfl
  | cons p t ih =>
    simp only [List.map_cons] at hnd ⊢
    have hnd' := List.nodup_cons.mp hnd
    congr 1
    · have hl : lookupKF (p :: t) p.1 = some p.2 := by rw [lookupKF_cons, if_pos rfl]
      simp [lookupD, hl]
    · have hcongr : (t.map Prod.fst).map (fun f => (f, lookupD (p :: t) f)) =
          (t.map Prod.fst).map fun f => (f, lookupD t f) := by
        apply List.map_congr_left
        intro f hf
        have hne : ¬ p.1 = f := fun h => hnd'.1 (h ▸ hf)
        simp [lookupD, lookupKF_cons, if_neg hne]
      rw [hcongr, ih hnd'.2]

theorem map_fst_sortedClone (kfs : List (ℚ × Keyframe)) :
    (sortedClone kfs).map Prod.fst = sortFrames (kfs.map Prod.fst) :=
  map_fst_keyMap _ _

theorem sortedClone_eq_self {kfs : List (ℚ × Keyframe)}
    (hnd : (kfs.map Prod.fst).Nodup) (hsort : (kfs.map Prod.fst).Sorted (· ≤ ·)) :
    sortedClone kfs = kfs := by
  rw [sortedClone, sortFrames_of_sorted hsort, map_lookupD_eq_self hnd]

theorem lookupKF_sortedClone {kfs : List (ℚ × Keyframe)}
    (hnd : (kfs.map Prod.fst).Nodup) (f : ℚ) :
    lookupKF (sortedClone kfs) f = lookupKF kfs f := by
  by_cases hf : f ∈ kfs.map Prod.fst
  · rw [sortedClone, lookupKF_keyMap_of_mem (nodup_sortFrames hnd) (mem_sortFrames.mpr hf)]
    exact (lookupKF_eq_some_lookupD hf).symm
  · rw [sortedClone, lookupKF_keyMap_of_not_mem fun h => hf (mem_sortFrames.mp h),
      lookupKF_eq_none hf]

theorem map_fst_pairWrite (result : List (ℚ × Keyframe)) (name : String) (f1 f2 : ℚ) :
    (pairWrite result name f1 f2).map Prod.fst = result.map Prod.fst := by
  rw [pairWrite]
  cases calculateHandles name f1 (lookupD result f1).value f2 (lookupD result f2).value with
  | none => rfl
  | some h => rw [map_fst_setLH, map_fst_setRH]

theorem map_fst_stripHandles (kfs : List (ℚ × Keyframe)) :
    (stripHandles kfs).map Prod.fst = kfs.map Prod.fst := by
  rw [stripHandles, List.map_map]
  rfl

theorem lookupKF_stripHandles (kfs : List (ℚ × Keyframe)) (f : ℚ) :
    lookupKF (stripHandles kfs) f =
      (lookupKF kfs f).map fun k => { value := k.value, LH := none, RH := none } := by
  induction kfs with
  | nil => rfl
  | cons p t ih =>
    rw [stripHandles, List.map_cons]
    have hfold : List.map
        (fun p => (p.1, ({ value := p.2.value, LH := none, RH := none } : Keyframe))) t =
        stripHandles t := rfl
    rw [hfold, lookupKF_cons, lookupKF_cons]
    by_cases hp : p.1 = f
    · simp [hp]
    · simp only [hp, if_false]
      exact ih

theorem lookupD_stripHandles (kfs : List (ℚ × Keyframe)) (f : ℚ) :
    lookupD (stripHandles kfs) f =
      { value := (lookupD kfs f).value, LH := none, RH := none } := by
  rw [lookupD, lookupD, lookupKF_stripHandles]
  cases lookupKF kfs f <;> rfl

theorem applyEasingToKeyframePair_ok {kfs : List (ℚ × Keyframe)} {name : String} {f1 f2 : ℚ}
    (hf1 : f1 ∈ kfs.map Prod.fst) (hf2 : f2 ∈ kfs.map Prod.fst) (hlt : f1 < f2) :
    applyEasingToKeyframePair kfs name f1 f2 =
      .ok (pairWrite (sortedClone kfs) name f1 f2) := by
  have h1 : f1 ∈ sortFrames (kfs.map Prod.fst) := mem_sortFrames.mpr hf1
  have h2 : f2 ∈ sortFrames (kfs.map Prod.fst) := mem_sortFrames.mpr hf2
  have hge : ¬ f1 ≥ f2 := not_le.mpr hlt
  rw [applyEasingToKeyframePair]
  simp only [h1, h2, not_true_eq_false, or_self, if_false, hge]
  rfl

theorem applyEasingToKeyframePair_invalidRange {kfs : List (ℚ × Keyframe)} {name : String}
    {f1 f2 : ℚ} (hf1 : f1 ∈ kfs.map Prod.fst) (hf2 : f2 ∈ kfs.map Prod.fst)
    (hge : f2 ≤ f1) :
    applyEasingToKeyframePair kfs name f1 f2 =
      .error "frame1 must be less than frame2" := by
  have h1 : f1 ∈ sortFrames (kfs.map Prod.fst) := mem_sortFrames.mpr hf1
  have h2 : f2 ∈ sortFrames (kfs.map Prod.fst) := mem_sortFrames.mpr hf2
  rw [applyEasingToKeyframePair]
  simp only [h1, h2, not_true_eq_false, or_self, if_false, ge_iff_le, hge, if_true]

theorem calculateHandles_of_not_preset {name : String}
    (h : getBezierPoints name = none) (f1 v1 f2 v2 : ℚ) :
    calculateHandles name f1 v1 f2 v2 = none := by
  rw [calculateHandles, h]

theorem calculateHandles_isSome_of_preset {name : String} {bz : ℚ × ℚ × ℚ × ℚ}
    (h : getBezierPoints name = some bz) (f1 v1 f2 v2 : ℚ) :
    ∃ hd, calculateHandles name f1 v1 f2 v2 = some hd := by
  obtain ⟨x1, y1, x2, y2⟩ := bz
  rw [calculateHandles, h]
  by_cases hn : name = "linear" <;> simp [hn]

theorem zip_tail_pairs : ∀ {l : List ℚ}, l.Pairwise (· < ·) →
    ∀ p ∈ l.zip l.tail, p.1 ∈ l ∧ p.2 ∈ l ∧ p.1 < p.2 := by
  intro l
  induction l with
  | nil => intro _ p hpmem; simp at hpmem
  | cons a t ih =>
    intro hp p hpmem
    cases t with
    | nil => simp at hpmem
    | cons b t2 =>
      simp only [List.tail_cons, List.zip_cons_cons, List.mem_cons] at hpmem
      rcases hpmem with rfl | hpmem
      · exact ⟨List.mem_cons_self _ _, List.mem_cons_of_mem _ (List.mem_cons_self _ _),
          (List.pairwise_cons.mp hp).1 b (List.mem_cons_self _ _)⟩
      · have ht : p ∈ (b :: t2).zip (b :: t2).tail := by simpa using hpmem
        obtain ⟨h1, h2, h3⟩ := ih (List.pairwise_cons.mp hp).2 p ht
        exact ⟨List.mem_cons_of_mem _ h1, List.mem_cons_of_mem _ h2, h3⟩

theorem applyPairsLoop_of_not_preset {name : String} (h : getBezierPoints name = none) :
    ∀ (pairs : List (ℚ × ℚ)) (result : List (ℚ × Keyframe)),
      applyPairsLoop result name pairs = result := by
  intro pairs
  induction pairs with
  | nil => intro result; rfl
  | cons p rest ih =>
    intro result
    obtain ⟨f1, f2⟩ := p
    have hpw : pairWrite result name f1 f2 = result := by
      simp only [pairWrite, calculateHandles_of_not_preset h]
    simp only [applyPairsLoop, hpw, ih]

theorem foldApplyPairs_eq_loop {name : String} :
    ∀ (pairs : List (ℚ × ℚ)) (cur : List (ℚ × Keyframe)),
      (cur.map Prod.fst).Nodup → (cur.map Prod.fst).Sorted (· ≤ ·) →
      (∀ p ∈ pairs, p.1 ∈ cur.map Prod.fst ∧ p.2 ∈ cur.map Prod.fst ∧ p.1 < p.2) →
      foldApplyPairs cur name pairs = .ok (applyPairsLoop cur name pairs) := by
  intro pairs
  induction pairs with
  | nil => intro cur _ _ _; rfl
  | cons p rest ih =>
    intro cur hnd hsort hp
    obtain ⟨f1, f2⟩ := p
    obtain ⟨h1, h2, hlt⟩ := hp (f1, f2) (List.mem_cons_self _ _)
    have hstep := @applyEasingToKeyframePair_ok cur name f1 f2 h1 h2 hlt
    rw [sortedClone_eq_self hnd hsort] at hstep
    simp only [foldApplyPairs, hstep, applyPairsLoop]
    apply ih
    · rw [map_fst_pairWrite]; exact hnd
    · rw [map_fst_pairWrite]; exact hsort
    · intro q hq
      rw [map_fst_pairWrite]
      exact hp q (List.mem_cons_of_mem _ hq)

theorem applyEasingToKeyframes_eq_fold {kfs : List (ℚ × Keyframe)} {name : String}
    (hnd : (kfs.map Prod.fst).Nodup) (hlen : 2 ≤ kfs.length) :
    applyEasingToKeyframes kfs name =
      foldApplyPairs (stripHandles kfs) name (consecutivePairs kfs) := by
  have hndf : (sortFrames (kfs.map Prod.fst)).Nodup := nodup_sortFrames hnd
  have hsortf : (sortFrames (kfs.map Prod.fst)).Sorted (· ≤ ·) := sorted_sortFrames _
  have hpwlt : (sortFrames (kfs.map Prod.fst)).Pairwise (· < ·) := hsortf.lt_of_le hndf
  have hlenf : 2 ≤ (sortFrames (kfs.map Prod.fst)).length := by
    rw [length_sortFrames, List.length_map]; exact hlen
  have hnotlt : ¬ (sortFrames (kfs.map Prod.fst)).length < 2 := not_lt.mpr hlenf
  have hinit : ((sortFrames (kfs.map Prod.fst)).map fun f =>
      (f, ({ value := (lookupD kfs f).value, LH := none, RH := none } : Keyframe))) =
      sortedClone (stripHandles kfs) := by
    rw [sortedClone, map_fst_stripHandles]
    apply List.map_congr_left
    intro f _
    rw [lookupD_stripHandles]
  rw [applyEasingToKeyframes]
  simp only [hnotlt, if_false, hinit]
  have hfststrip : (stripHandles kfs).map Prod.fst = kfs.map Prod.fst :=
    map_fst_stripHandles kfs
  cases hfr : sortFrames (kfs.map Prod.fst) with
  | nil => rw [hfr] at hlenf; simp at hlenf
  | cons a t1 =>
    cases t1 with
    | nil => rw [hfr] at hlenf; simp at hlenf
    | cons b t2 =>
      have hpairs : consecutivePairs kfs = (a, b) :: ((b :: t2).zip t2) := by
        rw [consecutivePairs, hfr, List.tail_cons, List.zip_cons_cons]
      obtain ⟨hamem, hbmem, hab⟩ := zip_tail_pairs (hfr ▸ hpwlt) (a, b)
        (by simp [List.zip_cons_cons])
      have ha : a ∈ (stripHandles kfs).map Prod.fst := by
        rw [hfststrip]; exact mem_sortFrames.mp (hfr ▸ hamem)
      have hb : b ∈ (stripHandles kfs).map Prod.fst := by
        rw [hfststrip]; exact mem_sortFrames.mp (hfr ▸ hbmem)
      have hstep := @applyEasingToKeyframePair_ok (stripHandles kfs) name a b ha hb hab
      rw [hpairs]
      simp only [foldApplyPairs, hstep]
      have hmapnext : (pairWrite (sortedClone (stripHandles kfs)) name a b).map Prod.fst =
          sortFrames (kfs.map Prod.fst) := by
        rw [map_fst_pairWrite, map_fst_sortedClone, hfststrip]
      have hrest := @foldApplyPairs_eq_loop name ((b :: t2).zip t2)
        (pairWrite (sortedClone (stripHandles kfs)) name a b)
        (by rw [hmapnext]; exact hndf)
        (by rw [hmapnext]; exact hsortf)
        (by
          intro q hq
          rw [hmapnext, hfr]
          have hq2 : q ∈ (a :: b :: t2).zip (a :: b :: t2).tail := by
            simp [List.zip_cons_cons, hq]
          obtain ⟨hq1, hq2m, hq3⟩ := zip_tail_pairs (hfr ▸ hpwlt) q hq2
          exact ⟨hfr ▸ hq1, hfr ▸ hq2m, hq3⟩)
      rw [hrest]
      simp only [List.tail_cons, List.zip_cons_cons, applyPairsLoop]
      rfl

theorem calculateHandles_isSome_eq (name : String) (f1 v1 f2 v2 : ℚ) :
    (calculateHandles name f1 v1 f2 v2).isSome = (getBezierPoints name).isSome := by
  rw [calculateHandles]
  cases getBezierPoints name with
  | none => rfl
  | some q =>
    obtain ⟨x1, y1, x2, y2⟩ := q
    by_cases hn : name = "linear" <;> simp [hn]

/-- C1: for every curve name with a catalog entry other than "linear" and all
inputs, `calculateHandles` returns exactly `outgoing = P1 - (frame1, value1)`
and `incoming = P2 - (frame2, value2)` where `P1`/`P2` scale the catalog
control points into the pair's frame/value span. -/
theorem C1_calculateHandles_catalog_scaling (name : String)
    (x1 y1 x2 y2 f1 v1 f2 v2 : ℚ)
    (hbz : getBezierPoints name = some (x1, y1, x2, y2)) (hne : name ≠ "linear") :
    calculateHandles name f1 v1 f2 v2 =
      some ⟨⟨(f1 + (f2 - f1) * x1) - f1, (v1 + (v2 - v1) * y1) - v1⟩,
            ⟨(f1 + (f2 - f1) * x2) - f2, (v1 + (v2 - v1) * y2) - v2⟩⟩ := by
  rw [calculateHandles, hbz]
  simp [hne]

theorem C1_witness :
    getBezierPoints "easeOutQuad" = some (0.5, 1, 0.89, 1) ∧
    "easeOutQuad" ≠ "linear" ∧
    calculateHandles "easeOutQuad" 10 20 30 40 =
      some ⟨⟨(10 + (30 - 10) * 0.5) - 10, (20 + (40 - 20) * 1) - 20⟩,
            ⟨(10 + (30 - 10) * 0.89) - 30, (20 + (40 - 20) * 1) - 40⟩⟩ :=
  ⟨rfl, by decide,
    C1_calculateHandles_catalog_scaling "easeOutQuad" 0.5 1 0.89 1 10 20 30 40 rfl
      (by decide)⟩

/-- C5: `calculateHandles "linear"` yields exactly the one-third offsets, via
its dedicated branch rather than the catalog-scaling computation. -/
theorem C5_calculateHandles_linear (f1 v1 f2 v2 : ℚ) :
    calculateHandles "linear" f1 v1 f2 v2 =
      some ⟨⟨(f2 - f1) / 3, (v2 - v1) / 3⟩, ⟨-(f2 - f1) / 3, -(v2 - v1) / 3⟩⟩ := by
  rw [calculateHandles, show getBezierPoints "linear" = some (0, 0, 1, 1) from rfl]
  simp

/-- C6: the code at the failing input.  A double-wrapped value is unwrapped
exactly one level, but an unparsable value (`{0: {value: "abc"}}`) is
silently coerced to `0` by the `Number(value) || 0` fallback instead of
failing with `MalformedKeyframe` as the spec requires. -/
theorem C6_fromFusionFormat_coercion :
    fromFusionFormat [(0, .obj (.wrapped (.num 5)) none none)] =
      [(0, ⟨5, none, none⟩)] ∧
    fromFusionFormat [(0, .obj (.str "abc") none none)] =
      [(0, ⟨0, none, none⟩)] :=
  ⟨rfl, rfl⟩

theorem C7_counterexample :
    calculateHandles "easeOutQuad" 10 0 10 1 = some ⟨⟨0, 1⟩, ⟨0, 0⟩⟩ := by
  rw [calculateHandles, show getBezierPoints "easeOutQuad" = some (0.5, 1, 0.89, 1) from rfl]
  norm_num +decide

/-- C7 (amended): `calculateHandles` performs no range validation — it
returns handles whenever the curve has a catalog entry, even for
`frame1 ≥ frame2` — while `applyEasingToKeyframePair` on a set containing
both frames rejects `frame1 ≥ frame2` with the InvalidRange error and
writes nothing. -/
theorem C7_invalid_range (kfs : List (ℚ × Keyframe)) (name : String) (f1 f2 v1 v2 : ℚ)
    (hf1 : f1 ∈ kfs.map Prod.fst) (hf2 : f2 ∈ kfs.map Prod.fst) (hge : f2 ≤ f1) :
    (calculateHandles name f1 v1 f2 v2).isSome = (getBezierPoints name).isSome ∧
    applyEasingToKeyframePair kfs name f1 f2 =
      .error "frame1 must be less than frame2" :=
  ⟨calculateHandles_isSome_eq name f1 v1 f2 v2,
   applyEasingToKeyframePair_invalidRange hf1 hf2 hge⟩

theorem C7_witness :
    (calculateHandles "easeOutQuad" 10 0 10 1).isSome =
      (getBezierPoints "easeOutQuad").isSome ∧
    applyEasingToKeyframePair [(10, ⟨0, none, none⟩), (20, ⟨1, none, none⟩)]
      "easeOutQuad" 10 10 = .error "frame1 must be less than frame2" :=
  C7_invalid_range [(10, ⟨0, none, none⟩), (20, ⟨1, none, none⟩)] "easeOutQuad" 10 10 0 1
    (by decide) (by decide) (by decide)

theorem C9_counterexample : ¬ BEZIER_PRESETS.length = 33 := by decide

/-- C9 (amended): the catalog holds the linear curve plus In/Out/InOut
variants of the sine, quadratic, cubic, quartic, quintic, exponential,
circular and back families — 25 names in total, not 33 — and
`isSingleBezier` is true exactly on names with a catalog entry. -/
theorem C9_catalog_families :
    BEZIER_PRESETS.map Prod.fst =
      ["linear",
       "easeInSine", "easeOutSine", "easeInOutSine",
       "easeInQuad", "easeOutQuad", "easeInOutQuad",
       "easeInCubic", "easeOutCubic", "easeInOutCubic",
       "easeInQuart", "easeOutQuart", "easeInOutQuart",
       "easeInQuint", "easeOutQuint", "easeInOutQuint",
       "easeInExpo", "easeOutExpo", "easeInOutExpo",
       "easeInCirc", "easeOutCirc", "easeInOutCirc",
       "easeInBack", "easeOutBack", "easeInOutBack"] ∧
    BEZIER_PRESETS.length = 25 ∧
    ∀ name, isSingleBezier name = (getBezierPoints name).isSome :=
  ⟨rfl, rfl, fun _ => rfl⟩

/-- C2: on a canonical set containing `f1 < f2`, with a representable curve,
`applyEasingToKeyframePair` leaves every keyframe at any other frame
identical, preserves `f1`'s value and pre-existing `LH` and `f2`'s value and
pre-existing `RH`, and writes only a new `RH` at `f1` and a new `LH` at
`f2`. -/
theorem C2_applyToPair_noninterference (kfs : List (ℚ × Keyframe)) (name : String)
    (f1 f2 : ℚ) (hnd : (kfs.map Prod.fst).Nodup)
    (hf1 : f1 ∈ kfs.map Prod.fst) (hf2 : f2 ∈ kfs.map Prod.fst)
    (hlt : f1 < f2) (hrep : isSingleBezier name = true) :
    ∃ out, applyEasingToKeyframePair kfs name f1 f2 = .ok out ∧
      (∀ f : ℚ, f ≠ f1 → f ≠ f2 → lookupKF out f = lookupKF kfs f) ∧
      (∃ k1, lookupKF kfs f1 = some k1 ∧
        ∃ rh, lookupKF out f1 = some { k1 with RH := some rh }) ∧
      (∃ k2, lookupKF kfs f2 = some k2 ∧
        ∃ lh, lookupKF out f2 = some { k2 with LH := some lh }) := by
  have hne : f1 ≠ f2 := ne_of_lt hlt
  obtain ⟨bz, hbz⟩ : ∃ bz, getBezierPoints name = some bz := by
    rw [isSingleBezier] at hrep
    exact Option.isSome_iff_exists.mp hrep
  obtain ⟨hd, hcalc⟩ := calculateHandles_isSome_of_preset hbz f1
    (lookupD (sortedClone kfs) f1).value f2 (lookupD (sortedClone kfs) f2).value
  have hpw : pairWrite (sortedClone kfs) name f1 f2 =
      setLH (setRH (sortedClone kfs) f1 (hd.rh1.x, hd.rh1.y)) f2 (hd.lh2.x, hd.lh2.y) := by
    simp only [pairWrite, hcalc]
  refine ⟨pairWrite (sortedClone kfs) name f1 f2,
    applyEasingToKeyframePair_ok hf1 hf2 hlt, ?_, ?_, ?_⟩
  · intro f hff1 hff2
    rw [hpw, lookupKF_setLH, if_neg hff2, lookupKF_setRH, if_neg hff1,
      lookupKF_sortedClone hnd]
  · refine ⟨lookupD kfs f1, lookupKF_eq_some_lookupD hf1, (hd.rh1.x, hd.rh1.y), ?_⟩
    rw [hpw, lookupKF_setLH, if_neg hne, lookupKF_setRH, if_pos rfl,
      lookupKF_sortedClone hnd, lookupKF_eq_some_lookupD hf1]
    rfl
  · refine ⟨lookupD kfs f2, lookupKF_eq_some_lookupD hf2, (hd.lh2.x, hd.lh2.y), ?_⟩
    rw [hpw, lookupKF_setLH, if_pos rfl, lookupKF_setRH, if_neg hne.symm,
      lookupKF_sortedClone hnd, lookupKF_eq_some_lookupD hf2]
    rfl

theorem C2_witness :
    ∃ out, applyEasingToKeyframePair
        [(0, ⟨0, some (-5, -5), none⟩), (10, ⟨1, none, some (2, 2)⟩),
         (20, ⟨3, none, none⟩)] "linear" 0 10 = .ok out ∧
      (∀ f : ℚ, f ≠ 0 → f ≠ 10 → lookupKF out f =
        lookupKF [(0, ⟨0, some (-5, -5), none⟩), (10, ⟨1, none, some (2, 2)⟩),
          (20, ⟨3, none, none⟩)] f) ∧
      (∃ k1, lookupKF [(0, ⟨0, some (-5, -5), none⟩), (10, ⟨1, none, some (2, 2)⟩),
          (20, ⟨3, none, none⟩)] 0 = some k1 ∧
        ∃ rh, lookupKF out 0 = some { k1 with RH := some rh }) ∧
      (∃ k2, lookupKF [(0, ⟨0, some (-5, -5), none⟩), (10, ⟨1, none, some (2, 2)⟩),
          (20, ⟨3, none, none⟩)] 10 = some k2 ∧
        ∃ lh, lookupKF out 10 = some { k2 with LH := some lh }) :=
  C2_applyToPair_noninterference
    [(0, ⟨0, some (-5, -5), none⟩), (10, ⟨1, none, some (2, 2)⟩), (20, ⟨3, none, none⟩)]
    "linear" 0 10 (by decide) (by decide) (by decide) (by decide) (by decide)

theorem init_eq_sortedClone_strip (kfs : List (ℚ × Keyframe)) :
    ((sortFrames (kfs.map Prod.fst)).map fun f =>
      (f, ({ value := (lookupD kfs f).value, LH := none, RH := none } : Keyframe))) =
    sortedClone (stripHandles kfs) := by
  rw [sortedClone, map_fst_stripHandles]
  apply List.map_congr_left
  intro f _
  rw [lookupD_stripHandles]

theorem C3_counterexample :
    applyEasingToKeyframePair [(0, ⟨0, none, none⟩), (10, ⟨1, none, none⟩)]
      "easeOutElastic" 0 10 =
    .ok [(0, ⟨0, none, none⟩), (10, ⟨1, none, none⟩)] := by
  rfl

/-- C3 (amended): a curve name with no catalog entry makes
`calculateHandles` return null, but `applyEasingToKeyframePair` and
`applyEasingToKeyframes` do not fail on it: the pair variant returns the
cloned set with every keyframe's handles unchanged and no new handle
written, the all-pairs variant returns the value-only clones with no
handle written, and only the `fusion:applyEasing` chain handler rejects
the name with an error — after its own at-least-2-keyframes guard —
before applying anything. -/
theorem C3_unsupported_curve (name : String) (hnone : getBezierPoints name = none) :
    (∀ f1 v1 f2 v2 : ℚ, calculateHandles name f1 v1 f2 v2 = none) ∧
    (∀ (kfs : List (ℚ × Keyframe)) (f1 f2 : ℚ), (kfs.map Prod.fst).Nodup →
      f1 ∈ kfs.map Prod.fst → f2 ∈ kfs.map Prod.fst → f1 < f2 →
      applyEasingToKeyframePair kfs name f1 f2 = .ok (sortedClone kfs) ∧
      ∀ f, lookupKF (sortedClone kfs) f = lookupKF kfs f) ∧
    (∀ kfs : List (ℚ × Keyframe), 2 ≤ kfs.length →
      applyEasingToKeyframes kfs name = .ok (sortedClone (stripHandles kfs))) ∧
    (∀ (kfs : List (ℚ × Keyframe)) (sel : List ℚ), 2 ≤ kfs.length →
      applyEasingChain kfs name sel =
        .error (name ++ " cannot be represented as a single bezier curve.")) := by
  have hfalse : isSingleBezier name = false := by
    rw [isSingleBezier, show BEZIER_PRESETS.lookup name = getBezierPoints name from rfl,
      hnone]
    rfl
  refine ⟨calculateHandles_of_not_preset hnone, ?_, ?_, ?_⟩
  · intro kfs f1 f2 hnd hf1 hf2 hlt
    refine ⟨?_, fun f => lookupKF_sortedClone hnd f⟩
    rw [applyEasingToKeyframePair_ok hf1 hf2 hlt]
    have : pairWrite (sortedClone kfs) name f1 f2 = sortedClone kfs := by
      simp only [pairWrite, calculateHandles_of_not_preset hnone]
    rw [this]
  · intro kfs hlen
    have hlenf : 2 ≤ (sortFrames (kfs.map Prod.fst)).length := by
      rw [length_sortFrames, List.length_map]; exact hlen
    have hnotlt : ¬ (sortFrames (kfs.map Prod.fst)).length < 2 := not_lt.mpr hlenf
    rw [applyEasingToKeyframes]
    simp only [hnotlt, if_false]
    rw [applyPairsLoop_of_not_preset hnone, init_eq_sortedClone_strip]
  · intro kfs sel hlen
    have hnotlt : ¬ kfs.length < 2 := not_lt.mpr hlen
    rw [applyEasingChain]
    simp [hnotlt, hfalse]

theorem C3_witness :
    calculateHandles "easeOutElastic" 1 2 3 4 = none ∧
    applyEasingToKeyframes [(0, ⟨0, none, none⟩), (10, ⟨1, none, none⟩)]
      "easeOutBounce" =
      .ok (sortedClone (stripHandles [(0, ⟨0, none, none⟩), (10, ⟨1, none, none⟩)])) ∧
    applyEasingChain [(0, ⟨0, none, none⟩), (10, ⟨1, none, none⟩)]
      "easeOutElastic" [0, 10] =
      .error ("easeOutElastic" ++ " cannot be represented as a single bezier curve.") :=
  ⟨(C3_unsupported_curve "easeOutElastic" rfl).1 1 2 3 4,
   (C3_unsupported_curve "easeOutBounce" rfl).2.2.1 _ (by decide),
   (C3_unsupported_curve "easeOutElastic" rfl).2.2.2 _ _ (by decide)⟩

/-- C4 (amended): with at least 2 keyframes, `applyEasingToKeyframes`
equals folding `applyEasingToKeyframePair` left-to-right over every
consecutive pair of the sorted frames — but starting from the set with all
pre-existing handles removed, because its value-only cloning loop drops
them (folding from the original set preserves pre-existing handles and
differs); with fewer than 2 keyframes it fails with the
InsufficientKeyframes error. -/
theorem C4_applyAll_fold (kfs : List (ℚ × Keyframe)) (name : String)
    (hnd : (kfs.map Prod.fst).Nodup) (hrep : isSingleBezier name = true) :
    (2 ≤ kfs.length →
      applyEasingToKeyframes kfs name =
        foldApplyPairs (stripHandles kfs) name (consecutivePairs kfs)) ∧
    (kfs.length < 2 →
      applyEasingToKeyframes kfs name =
        .error "Need at least 2 keyframes to apply easing") := by
  constructor
  · intro hlen
    exact applyEasingToKeyframes_eq_fold hnd hlen
  · intro hlen
    have hlt : (sortFrames (kfs.map Prod.fst)).length < 2 := by
      rw [length_sortFrames, List.length_map]; exact hlen
    rw [applyEasingToKeyframes]
    simp only [hlt, if_true]

theorem C4_witness :
    applyEasingToKeyframes [(0, ⟨0, none, none⟩), (10, ⟨1, none, none⟩)] "easeInQuad" =
      foldApplyPairs (stripHandles [(0, ⟨0, none, none⟩), (10, ⟨1, none, none⟩)])
        "easeInQuad"
        (consecutivePairs [(0, ⟨0, none, none⟩), (10, ⟨1, none, none⟩)]) :=
  (C4_applyAll_fold [(0, ⟨0, none, none⟩), (10, ⟨1, none, none⟩)] "easeInQuad"
    (by decide) (by decide)).1 (by decide)

theorem C4_counterexample :
    applyEasingToKeyframes [(0, ⟨0, some (-1, -1), none⟩), (10, ⟨1, none, none⟩)]
        "linear" ≠
      foldApplyPairs [(0, ⟨0, some (-1, -1), none⟩), (10, ⟨1, none, none⟩)] "linear"
        (consecutivePairs [(0, ⟨0, some (-1, -1), none⟩), (10, ⟨1, none, none⟩)]) := by
  intro heq
  have hcalc : calculateHandles "linear" 0 0 10 1 =
      some ⟨⟨10 / 3, 1 / 3⟩, ⟨-(10 / 3), -(1 / 3)⟩⟩ := by
    rw [calculateHandles, show getBezierPoints "linear" = some (0, 0, 1, 1) from rfl]
    norm_num
  have e1 : applyEasingToKeyframes
      [(0, ⟨0, some (-1, -1), none⟩), (10, ⟨1, none, none⟩)] "linear" =
      .ok (pairWrite [(0, ⟨0, none, none⟩), (10, ⟨1, none, none⟩)] "linear" 0 10) := rfl
  have e2 : foldApplyPairs [(0, ⟨0, some (-1, -1), none⟩), (10, ⟨1, none, none⟩)]
      "linear"
      (consecutivePairs [(0, ⟨0, some (-1, -1), none⟩), (10, ⟨1, none, none⟩)]) =
      .ok (pairWrite [(0, ⟨0, some (-1, -1), none⟩), (10, ⟨1, none, none⟩)]
        "linear" 0 10) := rfl
  have p1 : pairWrite [(0, ⟨0, none, none⟩), (10, ⟨1, none, none⟩)] "linear" 0 10 =
      [(0, ⟨0, none, some (10 / 3, 1 / 3)⟩),
       (10, ⟨1, some (-(10 / 3), -(1 / 3)), none⟩)] := by
    simp only [pairWrite,
      show (lookupD [(0, (⟨0, none, none⟩ : Keyframe)),
        (10, ⟨1, none, none⟩)] 0).value = 0 from rfl,
      show (lookupD [(0, (⟨0, none, none⟩ : Keyframe)),
        (10, ⟨1, none, none⟩)] 10).value = 1 from rfl, hcalc]
    norm_num [setRH, setLH]
  have p2 : pairWrite [(0, ⟨0, some (-1, -1), none⟩), (10, ⟨1, none, none⟩)]
      "linear" 0 10 =
      [(0, ⟨0, some (-1, -1), some (10 / 3, 1 / 3)⟩),
       (10, ⟨1, some (-(10 / 3), -(1 / 3)), none⟩)] := by
    simp only [pairWrite,
      show (lookupD [(0, (⟨0, some (-1, -1), none⟩ : Keyframe)),
        (10, ⟨1, none, none⟩)] 0).value = 0 from rfl,
      show (lookupD [(0, (⟨0, some (-1, -1), none⟩ : Keyframe)),
        (10, ⟨1, none, none⟩)] 10).value = 1 from rfl, hcalc]
    norm_num [setRH, setLH]
  rw [e1, e2, p1, p2] at heq
  simp at heq

theorem fromFusion_toFusion_entry (k : Keyframe) :
    fromFusionEntry (toFusionEntry k) = k := by
  obtain ⟨v, lh, rh⟩ := k
  cases lh <;> cases rh <;> rfl

/-- C8: serialising a normalized table back to the wire shape loses
nothing: re-normalising `toFusionFormat (fromFusionFormat r)` agrees with
normalising `r` itself frame by frame — same frames, and at each frame the
same extracted value and the same handle presence and handle values (the
content `fromFusionEntry` extracts). -/
theorem C8_roundtrip (r : List (ℚ × RawKF))
    (hv : ∀ p ∈ r, validRawKF p.2 = true) :
    (toFusionFormat (fromFusionFormat r)).map Prod.fst = r.map Prod.fst ∧
    List.Forall₂ (fun p q => p.1 = q.1 ∧ fromFusionEntry p.2 = fromFusionEntry q.2)
      (toFusionFormat (fromFusionFormat r)) r := by
  constructor
  · rw [toFusionFormat, fromFusionFormat, List.map_map, List.map_map]
    rfl
  · induction r with
    | nil => exact List.Forall₂.nil
    | cons p t ih =>
      exact List.forall₂_cons.mpr
        ⟨⟨rfl, fromFusion_toFusion_entry (fromFusionEntry p.2)⟩,
         ih fun q hq => hv q (List.mem_cons_of_mem _ hq)⟩

theorem C8_witness :
    (toFusionFormat (fromFusionFormat
        [(0, .bareNum 3),
         (1, .obj (.num 4) (some (.harr (.num 1) (.num 2))) none),
         (2, .arr (.num 5) none (some (.hobj (.num 6) (.num 7))))])).map Prod.fst =
      [(0, RawKF.bareNum 3),
       (1, .obj (.num 4) (some (.harr (.num 1) (.num 2))) none),
       (2, .arr (.num 5) none (some (.hobj (.num 6) (.num 7))))].map Prod.fst ∧
    List.Forall₂ (fun p q => p.1 = q.1 ∧ fromFusionEntry p.2 = fromFusionEntry q.2)
      (toFusionFormat (fromFusionFormat
        [(0, .bareNum 3),
         (1, .obj (.num 4) (some (.harr (.num 1) (.num 2))) none),
         (2, .arr (.num 5) none (some (.hobj (.num 6) (.num 7))))]))
      [(0, .bareNum 3),
       (1, .obj (.num 4) (some (.harr (.num 1) (.num 2))) none),
       (2, .arr (.num 5) none (some (.hobj (.num 6) (.num 7))))] :=
  C8_roundtrip
    [(0, .bareNum 3),
     (1, .obj (.num 4) (some (.harr (.num 1) (.num 2))) none),
     (2, .arr (.num 5) none (some (.hobj (.num 6) (.num 7))))]
    (by decide)

theorem lookup_mem_values :
    ∀ {l : List (String × (ℚ × ℚ × ℚ × ℚ))} {a : String} {b : ℚ × ℚ × ℚ × ℚ},
      l.lookup a = some b → b ∈ l.map Prod.snd := by
  intro l
  induction l with
  | nil => intro a b h; simp [List.lookup] at h
  | cons p t ih =>
    intro a b h
    obtain ⟨k, v⟩ := p
    rw [List.lookup] at h
    cases hk : a == k with
    | true =>
      rw [hk] at h
      simp only [Option.some.injEq] at h
      subst h
      exact List.mem_cons_self _ _
    | false =>
      rw [hk] at h
      exact List.mem_cons_of_mem _ (ih h)

theorem presets_x_in_unit : ∀ q ∈ BEZIER_PRESETS.map Prod.snd,
    0 ≤ q.1 ∧ q.1 ≤ 1 ∧ 0 ≤ q.2.2.1 ∧ q.2.2.1 ≤ 1 := by
  intro q hq
  fin_cases hq <;> norm_num

/-- C10: for every catalog curve and `frame1 < frame2`, the computed
handles never point backward in time — the outgoing x-offset lies in
`[0, frame2-frame1]` and the incoming x-offset in `[-(frame2-frame1), 0]`,
since every catalog entry's `x1`, `x2` lie in `[0, 1]`. -/
theorem C10_handles_forward (name : String) (f1 v1 f2 v2 : ℚ) (h : Handles)
    (hlt : f1 < f2) (heq : calculateHandles name f1 v1 f2 v2 = some h) :
    0 ≤ h.rh1.x ∧ h.rh1.x ≤ f2 - f1 ∧ -(f2 - f1) ≤ h.lh2.x ∧ h.lh2.x ≤ 0 := by
  have hfd : 0 < f2 - f1 := by linarith
  rw [calculateHandles] at heq
  cases hbz : getBezierPoints name with
  | none => rw [hbz] at heq; simp at heq
  | some q =>
    obtain ⟨x1, y1, x2, y2⟩ := q
    rw [hbz] at heq
    obtain ⟨hx1a, hx1b, hx2a, hx2b⟩ :=
      presets_x_in_unit (x1, y1, x2, y2) (lookup_mem_values hbz)
    by_cases hn : name = "linear"
    · simp only [hn, if_true, Option.some.injEq, eq_self_iff_true] at heq
      subst heq
      refine ⟨by positivity, by linarith, by linarith, ?_⟩
      have : -(f2 - f1) / 3 ≤ 0 := by linarith
      simpa using this
    · simp only [hn, if_false, Option.some.injEq] at heq
      subst heq
      have hm1 : 0 ≤ (f2 - f1) * x1 := mul_nonneg hfd.le hx1a
      have hm2 : (f2 - f1) * x1 ≤ f2 - f1 := mul_le_of_le_one_right hfd.le hx1b
      have hm3 : 0 ≤ (f2 - f1) * x2 := mul_nonneg hfd.le hx2a
      have hm4 : (f2 - f1) * x2 ≤ f2 - f1 := mul_le_of_le_one_right hfd.le hx2b
      refine ⟨?_, ?_, ?_, ?_⟩
      · show 0 ≤ f1 + (f2 - f1) * x1 - f1
        linarith
      · show f1 + (f2 - f1) * x1 - f1 ≤ f2 - f1
        linarith
      · show -(f2 - f1) ≤ f1 + (f2 - f1) * x2 - f2
        linarith
      · show f1 + (f2 - f1) * x2 - f2 ≤ 0
        linarith

theorem C10_witness :
    (0:ℚ) < 100 ∧
    calculateHandles "easeInOutBack" 0 0 100 1 =
      some ⟨⟨68, -0.55⟩, ⟨-73.5, 0.55⟩⟩ ∧
    (0 ≤ (⟨⟨68, -0.55⟩, ⟨-73.5, 0.55⟩⟩ : Handles).rh1.x ∧
      (⟨⟨68, -0.55⟩, ⟨-73.5, 0.55⟩⟩ : Handles).rh1.x ≤ 100 - 0 ∧
      -((100:ℚ) - 0) ≤ (⟨⟨68, -0.55⟩, ⟨-73.5, 0.55⟩⟩ : Handles).lh2.x ∧
      (⟨⟨68, -0.55⟩, ⟨-73.5, 0.55⟩⟩ : Handles).lh2.x ≤ 0) := by
  have hc : calculateHandles "easeInOutBack" 0 0 100 1 =
      some ⟨⟨68, -0.55⟩, ⟨-73.5, 0.55⟩⟩ := by
    rw [calculateHandles,
      show getBezierPoints "easeInOutBack" = some (0.68, -0.55, 0.265, 1.55) from rfl]
    norm_num +decide
  exact ⟨by norm_num, hc,
    C10_handles_forward "easeInOutBack" 0 0 100 1 _ (by norm_num) hc⟩
